import Mathlib

/-!
Verification of the holistic-data-processing-service repository.

This file gives a shallow embedding of the core computational parts of the
repository and proves properties about them:

* `src/data_processor/src/dateutil.py` — the period gap classifiers
  `is_one_week_diff`, `is_one_month_diff`, `is_one_year_diff`, built on
  `dateutil.relativedelta` applied to two `datetime.date` values;
* `src/data_processing/processor_app/active_therapist.py` — the
  before-period carry-forward (`OrgActiveTherProcessor`);
* `src/data_processing/processor_app/rate.py` — churn/retention rates
  (`ActiveTherapistRate`);
* `src/data_processor/processor_app/interaction.py` — interaction
  cleaning, validity filter and de-duplication
  (`InteractionDataProcessor._process_data`);
* `src/data-processing-service/data_cleaner/sources/operations.py` —
  CSV validation (`TherapistInteractionBackendOperation._validate`).

Dataframes are modelled as lists of records, Python dates as a
year/month/day structure, and Python numbers as `Int`/`Rat`.
-/

/-! ## Calendar dates (`datetime.date`) -/

/-- Proleptic Gregorian calendar date, as in Python `datetime.date`. -/
structure Date where
  year : Nat
  month : Nat
  day : Nat
deriving DecidableEq, Repr

/-- Gregorian leap-year rule (`calendar.isleap`). -/
def isLeapYear (y : Nat) : Bool :=
  (y % 4 == 0 && y % 100 != 0) || (y % 400 == 0)

/-- Number of days in month `m` of year `y` (`calendar.monthrange(y, m)[1]`). -/
def daysInMonth (y m : Nat) : Nat :=
  if m = 2 then (if isLeapYear y then 29 else 28)
  else if m = 4 ∨ m = 6 ∨ m = 9 ∨ m = 11 then 30
  else 31

/-- Days in year `y` strictly before month `m`. -/
def daysBeforeMonth (y m : Nat) : Nat :=
  (List.range (m - 1)).foldl (fun acc i => acc + daysInMonth y (i + 1)) 0

/-- Day number of a date in the proleptic Gregorian calendar
(`datetime.date.toordinal`): 0001-01-01 is day 1. -/
def Date.toOrdinal (d : Date) : Nat :=
  365 * (d.year - 1) + (d.year - 1) / 4 - (d.year - 1) / 100 + (d.year - 1) / 400
    + daysBeforeMonth d.year d.month + d.day

/-- A structurally valid calendar date. -/
def Date.Valid (d : Date) : Prop :=
  1 ≤ d.year ∧ 1 ≤ d.month ∧ d.month ≤ 12 ∧ 1 ≤ d.day ∧ d.day ≤ daysInMonth d.year d.month

instance (d : Date) : Decidable d.Valid := by
  unfold Date.Valid; infer_instance

/-- Python date comparison `a < b` (lexicographic on year, month, day). -/
def dateLt (a b : Date) : Bool :=
  decide (a.year < b.year ∨ (a.year = b.year ∧
    (a.month < b.month ∨ (a.month = b.month ∧ a.day < b.day))))

/-- Python date comparison `a <= b`. -/
def dateLe (a b : Date) : Bool :=
  dateLt a b || a == b

/-! ## `dateutil.relativedelta(current, previous)` for dates

`relativedelta(dt1, dt2)` (with `dt1 ≥ dt2`) computes the month count
`months = (dt1.year - dt2.year) * 12 + (dt1.month - dt2.month)`, then
decrements it while `dt2` shifted by that many months (day-of-month
clamped to the target month length) overshoots `dt1`; the leftover is
the `days` field, and the final month count is split into `years` and
`months` fields. We embed exactly that computation. -/

/-- Shift a date by `k` calendar months, clamping the day of month to the
length of the target month (`dt2 + relativedelta(months=k)`). -/
def addMonthsClamped (d : Date) (k : Nat) : Date :=
  let t := d.year * 12 + (d.month - 1) + k
  let y := t / 12
  let m := t % 12 + 1
  { year := y, month := m, day := min d.day (daysInMonth y m) }

/-- Initial month count `(c.year - p.year) * 12 + (c.month - p.month)`
(truncated subtraction; the classifiers only reach this with `p ≤ c`). -/
def months0 (p c : Date) : Nat :=
  c.year * 12 + c.month - (p.year * 12 + p.month)

/-- Downward adjustment loop of `relativedelta`: starting from the initial
month count, decrement while the shifted date overshoots `c`. -/
def relKAux (p c : Date) : Nat → Nat
  | 0 => 0
  | k + 1 =>
    if (addMonthsClamped p (k + 1)).toOrdinal ≤ c.toOrdinal then k + 1
    else relKAux p c k

/-- Final (non-negative) month count of `relativedelta(c, p)` for `p ≤ c`. -/
def relK (p c : Date) : Nat := relKAux p c (months0 p c)

/-- The `days` field of `relativedelta(c, p)` for `p ≤ c`. -/
def relDays (p c : Date) : Nat :=
  c.toOrdinal - (addMonthsClamped p (relK p c)).toOrdinal

/-- The `months` field of `relativedelta(c, p)` for `p ≤ c`. -/
def relMonths (p c : Date) : Nat := relK p c % 12

/-- The `years` field of `relativedelta(c, p)` for `p ≤ c`. -/
def relYears (p c : Date) : Nat := relK p c / 12

/-! ## `src/data_processor/src/dateutil.py` -/

/-- Embedding of `is_one_week_diff(previous, current)`: false if
`current < previous`, else `relativedelta(current, previous).days == 7`. -/
def is_one_week_diff (previous current : Date) : Bool :=
  if dateLt current previous then false
  else relDays previous current == 7

/-- Embedding of `is_one_month_diff(previous, current)`: false if
`current < previous`, else `relativedelta(current, previous).months == 1`. -/
def is_one_month_diff (previous current : Date) : Bool :=
  if dateLt current previous then false
  else relMonths previous current == 1

/-- Embedding of `is_one_year_diff(previous, current)`: false if
`current < previous`, else `relativedelta(current, previous).years == 1`. -/
def is_one_year_diff (previous current : Date) : Bool :=
  if dateLt current previous then false
  else relYears previous current == 1

/-- C8: gap classifier test vectors from the spec:
`is_one_week_diff(2023-01-01, 2023-01-08) = true`;
`is_one_week_diff(2023-01-01, 2023-01-15) = false`;
`is_one_month_diff(2023-01-31, 2023-02-28) = true` (month-end clamping
counts as exactly one month); `is_one_year_diff(2023-06-01, 2024-06-01) = true`. -/
theorem gap_classifier_test_vectors :
    is_one_week_diff ⟨2023, 1, 1⟩ ⟨2023, 1, 8⟩ = true ∧
    is_one_week_diff ⟨2023, 1, 1⟩ ⟨2023, 1, 15⟩ = false ∧
    is_one_month_diff ⟨2023, 1, 31⟩ ⟨2023, 2, 28⟩ = true ∧
    is_one_year_diff ⟨2023, 6, 1⟩ ⟨2024, 6, 1⟩ = true := by
  refine ⟨?_, ?_, ?_, ?_⟩ <;> decide

theorem dateLt_irrefl (a : Date) : dateLt a a = false := by
  simp [dateLt]

theorem dateLt_asymm {a b : Date} (h : dateLt a b = true) : dateLt b a = false := by
  simp only [dateLt, decide_eq_true_eq, decide_eq_false_iff_not] at *
  omega

theorem eq_or_dateLt_of_not_dateLt {a b : Date} (h : dateLt b a = false) :
    a = b ∨ dateLt a b = true := by
  obtain ⟨ya, ma, da⟩ := a
  obtain ⟨yb, mb, db⟩ := b
  simp only [dateLt, decide_eq_true_eq, decide_eq_false_iff_not, Date.mk.injEq] at *
  omega

theorem addMonthsClamped_zero {d : Date} (hd : d.Valid) : addMonthsClamped d 0 = d := by
  obtain ⟨y, m, day⟩ := d
  simp only [Date.Valid] at hd
  obtain ⟨-, h2, h3, -, h5⟩ := hd
  simp only [addMonthsClamped, Date.mk.injEq]
  have e1 : (y * 12 + (m - 1) + 0) / 12 = y := by omega
  have e2 : (y * 12 + (m - 1) + 0) % 12 + 1 = m := by omega
  refine ⟨e1, e2, ?_⟩
  rw [e1, e2]
  exact Nat.min_eq_left h5

theorem months0_self (p : Date) : months0 p p = 0 := by
  simp [months0]

theorem relK_self (p : Date) : relK p p = 0 := by
  simp [relK, months0_self, relKAux]

theorem relDays_self {p : Date} (hp : p.Valid) : relDays p p = 0 := by
  simp [relDays, relK_self, addMonthsClamped_zero hp]

theorem relMonths_self (p : Date) : relMonths p p = 0 := by
  simp [relMonths, relK_self]

theorem relYears_self (p : Date) : relYears p p = 0 := by
  simp [relYears, relK_self]

/-- C2 (amended): for a valid `previous` date, each classifier returns false
whenever `current <= previous` (and, being a total function, never throws);
for `current > previous` it returns true iff the corresponding single
component of the normalized `relativedelta(current, previous)` equals one
unit — the leftover `days` equal to 7, the `months` component equal to 1
(years ignored), or the `years` component equal to 1 (months and days
ignored) — not iff the full calendar difference is exactly one unit. -/
theorem gap_classifier_component_characterization (p c : Date) (hp : p.Valid) :
    (is_one_week_diff p c = true ↔ dateLt p c = true ∧ relDays p c = 7) ∧
    (is_one_month_diff p c = true ↔ dateLt p c = true ∧ relMonths p c = 1) ∧
    (is_one_year_diff p c = true ↔ dateLt p c = true ∧ relYears p c = 1) ∧
    (dateLe c p = true →
      is_one_week_diff p c = false ∧ is_one_month_diff p c = false ∧
      is_one_year_diff p c = false) := by
  by_cases hlt : dateLt c p = true
  · have hpc : dateLt p c = false := dateLt_asymm hlt
    refine ⟨?_, ?_, ?_, fun _ => ?_⟩ <;>
      simp [is_one_week_diff, is_one_month_diff, is_one_year_diff, hlt, hpc]
  · have hlt' : dateLt c p = false := by
      revert hlt; cases dateLt c p <;> simp
    rcases eq_or_dateLt_of_not_dateLt hlt' with heq | hpc
    · subst heq
      refine ⟨?_, ?_, ?_, fun _ => ?_⟩ <;>
        simp [is_one_week_diff, is_one_month_diff, is_one_year_diff, hlt',
          relDays_self hp, relMonths_self, relYears_self, dateLt_irrefl]
    · have hle : dateLe c p = false := by
        have : (c == p) = false := by
          rcases eq_or_dateLt_of_not_dateLt (dateLt_asymm hpc) with h | h
          · subst h; rw [dateLt_irrefl] at hpc; cases hpc
          · simp only [beq_eq_false_iff_ne, ne_eq]
            intro h2; subst h2; rw [dateLt_irrefl] at hpc; cases hpc
        simp [dateLe, hlt', this]
      refine ⟨?_, ?_, ?_, fun hcp => ?_⟩
      · simp [is_one_week_diff, hlt', hpc]
      · simp [is_one_month_diff, hlt', hpc]
      · simp [is_one_year_diff, hlt', hpc]
      · rw [hle] at hcp; cases hcp

/-- Witness for the amended C2 theorem at concrete valid dates. -/
theorem gap_classifier_component_characterization_witness :
    is_one_week_diff ⟨2023, 1, 1⟩ ⟨2023, 1, 8⟩ = true ∧ Date.Valid ⟨2023, 1, 1⟩ :=
  ⟨((gap_classifier_component_characterization ⟨2023, 1, 1⟩ ⟨2023, 1, 8⟩
      (by decide)).1).mpr (by decide), by decide⟩

/-- C2 counterexample: the classifiers test a single component of the
normalized `relativedelta`, not the full calendar difference.
`is_one_week_diff(2023-01-01, 2023-02-08)` is `true` (the difference is
one month and seven days, and the `days` component is 7) although the
difference is 38 days, not 7; `is_one_month_diff(2023-01-01, 2024-02-01)`
is `true` although the difference is 13 calendar months; and
`is_one_year_diff(2023-06-01, 2024-08-01)` is `true` although the
difference is one year and two months. -/
theorem gap_classifier_not_exact_difference :
    is_one_week_diff ⟨2023, 1, 1⟩ ⟨2023, 2, 8⟩ = true ∧
    Date.toOrdinal ⟨2023, 2, 8⟩ - Date.toOrdinal ⟨2023, 1, 1⟩ = 38 ∧
    is_one_month_diff ⟨2023, 1, 1⟩ ⟨2024, 2, 1⟩ = true ∧
    months0 ⟨2023, 1, 1⟩ ⟨2024, 2, 1⟩ = 13 ∧
    is_one_year_diff ⟨2023, 6, 1⟩ ⟨2024, 8, 1⟩ = true ∧
    months0 ⟨2023, 6, 1⟩ ⟨2024, 8, 1⟩ = 14 := by
  refine ⟨?_, ?_, ?_, ?_, ?_, ?_⟩ <;> decide

/-! ## `src/data_processing/processor_app/rate.py`

`ActiveTherapistRate._get_churn_rate(b, w)` returns `0` when `b == 0` and
`round((b - w) / b, 2)` otherwise; `_get_retention_rate` returns `0` or
`round(w / b, 2)`.  We embed the computation twice: once over exact
rational arithmetic with decimal round-half-to-even (the idealized reading
of `round(x, 2)`; the spec leaves the rounding mode ambiguous), and once
with the quotient first rounded to the nearest binary64 value, which is
what Python actually evaluates.  The two agree except when the exact
quotient lies within a relative distance of about `2 ^ (-53)` of a
half-cent boundary. -/

/-- Round a rational to the nearest integer, ties to even. -/
def roundHE (q : ℚ) : ℤ :=
  if q - ⌊q⌋ < 1 / 2 then ⌊q⌋
  else if 1 / 2 < q - ⌊q⌋ then ⌊q⌋ + 1
  else if ⌊q⌋ % 2 = 0 then ⌊q⌋ else ⌊q⌋ + 1

/-- Python `round(x, 2)` on an exact value: nearest multiple of `1/100`,
ties to even. -/
def pyRound2 (q : ℚ) : ℚ := (roundHE (100 * q) : ℚ) / 100

/-- Fuel-driven floor of the base-2 logarithm (structural recursion, so
the kernel can evaluate it inside `decide`). -/
def log2Fuel : Nat → Nat → Nat
  | 0, _ => 0
  | fuel + 1, n => if 2 ≤ n then log2Fuel fuel (n / 2) + 1 else 0

/-- Floor of the base-2 logarithm of a natural number. -/
def natLog2 (n : Nat) : Nat := log2Fuel n n

theorem natLog2Eval1 : natLog2 1 = 0 := rfl

theorem natLog2Eval7 : natLog2 7 = 2 := rfl

theorem natLog2Eval33 : natLog2 33 = 5 := rfl

theorem natLog2Eval40 : natLog2 40 = 5 := rfl

theorem natLog2Eval1000 : natLog2 1000 = 9 := rfl

/-- Value of the binary64 (IEEE-754 double) nearest to a rational: the
significand is rounded to 53 bits, ties to even.  The exponent range is
not clamped, which is faithful for every magnitude arising here.  This
models the exact value held by a Python float. -/
def floatApprox (q : ℚ) : ℚ :=
  if q = 0 then 0
  else
    let a : ℚ := (q.num.natAbs : ℚ) / (q.den : ℚ)
    let e0 : ℤ := (natLog2 q.num.natAbs : ℤ) - (natLog2 q.den : ℤ) - 52
    let e : ℤ := if a * (2 : ℚ) ^ (-e0) < 2 ^ 52 then e0 - 1 else e0
    (if q < 0 then -1 else 1) * (roundHE (a * (2 : ℚ) ^ (-e)) : ℚ) * (2 : ℚ) ^ e

namespace ActiveTherapistRate

/-- Embedding of `ActiveTherapistRate._get_churn_rate` over exact rational
arithmetic: `0` when the before-period count is zero, otherwise
`round((b - w) / b, 2)` with exact decimal round-half-to-even. -/
def getChurnRate (b w : ℤ) : ℚ :=
  if b = 0 then 0 else pyRound2 (((b : ℚ) - w) / b)

/-- Embedding of `ActiveTherapistRate._get_retention_rate` over exact
rational arithmetic. -/
def getRetentionRate (b w : ℤ) : ℚ :=
  if b = 0 then 0 else pyRound2 ((w : ℚ) / b)

/-- Binary64-faithful embedding of `_get_churn_rate`: the quotient is
rounded to the nearest double before `round(x, 2)`, as Python evaluates. -/
def getChurnRateFloat (b w : ℤ) : ℚ :=
  if b = 0 then 0 else pyRound2 (floatApprox (((b : ℚ) - w) / b))

/-- Binary64-faithful embedding of `_get_retention_rate`. -/
def getRetentionRateFloat (b w : ℤ) : ℚ :=
  if b = 0 then 0 else pyRound2 (floatApprox ((w : ℚ) / b))

end ActiveTherapistRate

/-- C3: with a zero before-period count both rate functions return `0`
without reaching the division (in either arithmetic model), and both are
total functions of the integer inputs. -/
theorem rate_zero_base (x : ℤ) :
    ActiveTherapistRate.getChurnRate 0 x = 0 ∧
    ActiveTherapistRate.getRetentionRate 0 x = 0 ∧
    ActiveTherapistRate.getChurnRateFloat 0 x = 0 ∧
    ActiveTherapistRate.getRetentionRateFloat 0 x = 0 := by
  refine ⟨?_, ?_, ?_, ?_⟩ <;>
    simp [ActiveTherapistRate.getChurnRate, ActiveTherapistRate.getRetentionRate,
      ActiveTherapistRate.getChurnRateFloat, ActiveTherapistRate.getRetentionRateFloat]

theorem roundHE_eq_floor {q : ℚ} (h : q - ⌊q⌋ < 1 / 2) : roundHE q = ⌊q⌋ := by
  unfold roundHE
  rw [if_pos h]

theorem roundHE_eq_floor_add_one {q : ℚ} (h : 1 / 2 < q - ⌊q⌋) :
    roundHE q = ⌊q⌋ + 1 := by
  unfold roundHE
  rw [if_neg (by linarith), if_pos h]

theorem roundHE_tie_even {q : ℚ} (h : q - ⌊q⌋ = 1 / 2) (he : ⌊q⌋ % 2 = 0) :
    roundHE q = ⌊q⌋ := by
  unfold roundHE
  rw [if_neg (by linarith), if_neg (by linarith), if_pos he]

theorem roundHE_tie_odd {q : ℚ} (h : q - ⌊q⌋ = 1 / 2) (he : ¬ ⌊q⌋ % 2 = 0) :
    roundHE q = ⌊q⌋ + 1 := by
  unfold roundHE
  rw [if_neg (by linarith), if_neg (by linarith), if_neg he]

theorem roundHE_neg_iff (q : ℚ) : roundHE q < 0 ↔ q < -(1 / 2) := by
  have h1 : (⌊q⌋ : ℚ) ≤ q := Int.floor_le q
  have h2 : q < ⌊q⌋ + 1 := Int.lt_floor_add_one q
  rcases lt_trichotomy (q - ⌊q⌋) (1 / 2) with hlt | heq | hgt
  · rw [roundHE_eq_floor hlt]
    constructor
    · intro h
      have h3 : ⌊q⌋ ≤ -1 := by omega
      have h4 : (⌊q⌋ : ℚ) ≤ -1 := by exact_mod_cast h3
      linarith
    · intro h
      by_contra hge
      push_neg at hge
      have h4 : (0 : ℚ) ≤ (⌊q⌋ : ℚ) := by exact_mod_cast hge
      linarith
  · by_cases he : ⌊q⌋ % 2 = 0
    · rw [roundHE_tie_even heq he]
      constructor
      · intro h
        have : ⌊q⌋ ≤ -2 := by omega
        have : (⌊q⌋ : ℚ) ≤ -2 := by exact_mod_cast this
        linarith
      · intro h
        have : (⌊q⌋ : ℚ) < -1 := by linarith
        have : ⌊q⌋ < -1 := by exact_mod_cast this
        omega
    · rw [roundHE_tie_odd heq he]
      constructor
      · intro h
        have : ⌊q⌋ ≤ -2 := by omega
        have : (⌊q⌋ : ℚ) ≤ -2 := by exact_mod_cast this
        linarith
      · intro h
        have : (⌊q⌋ : ℚ) < -1 := by linarith
        have : ⌊q⌋ < -1 := by exact_mod_cast this
        omega
  · rw [roundHE_eq_floor_add_one hgt]
    constructor
    · intro h
      have : ⌊q⌋ ≤ -2 := by omega
      have : (⌊q⌋ : ℚ) ≤ -2 := by exact_mod_cast this
      linarith
    · intro h
      have : (⌊q⌋ : ℚ) < -1 := by linarith
      have : ⌊q⌋ < -1 := by exact_mod_cast this
      omega

theorem roundHE_add_sub (n : ℤ) (q : ℚ) (hn : n % 2 = 0) :
    roundHE q + roundHE ((n : ℚ) - q) = n := by
  have h1 : (⌊q⌋ : ℚ) ≤ q := Int.floor_le q
  have h2 : q < ⌊q⌋ + 1 := Int.lt_floor_add_one q
  rcases eq_or_lt_of_le (sub_nonneg.mpr h1) with hz | hpos
  · have hfr : q - ⌊q⌋ = 0 := hz.symm
    have hq : q = (⌊q⌋ : ℚ) := by linarith
    have hf2 : ⌊(n : ℚ) - q⌋ = n - ⌊q⌋ := by
      rw [hq, show (n : ℚ) - (⌊q⌋ : ℚ) = ((n - ⌊q⌋ : ℤ) : ℚ) by push_cast; ring]
      exact Int.floor_intCast _
    have r1 : roundHE q = ⌊q⌋ := roundHE_eq_floor (by rw [hfr]; norm_num)
    have r2 : roundHE ((n : ℚ) - q) = ⌊(n : ℚ) - q⌋ := by
      apply roundHE_eq_floor
      rw [hf2, hq]
      push_cast
      ring_nf
      norm_num
    rw [r1, r2, hf2]
    omega
  · have hf2 : ⌊(n : ℚ) - q⌋ = n - ⌊q⌋ - 1 := by
      rw [Int.floor_eq_iff]
      constructor <;> push_cast <;> linarith
    have hfr2 : ((n : ℚ) - q) - (⌊(n : ℚ) - q⌋ : ℚ) = 1 - (q - ⌊q⌋) := by
      rw [hf2]
      push_cast
      ring
    rcases lt_trichotomy (q - ⌊q⌋) (1 / 2) with hlt | heq | hgt
    · have r1 : roundHE q = ⌊q⌋ := roundHE_eq_floor hlt
      have r2 : roundHE ((n : ℚ) - q) = ⌊(n : ℚ) - q⌋ + 1 :=
        roundHE_eq_floor_add_one (by rw [hfr2]; linarith)
      rw [r1, r2, hf2]
      omega
    · have hfr2' : ((n : ℚ) - q) - (⌊(n : ℚ) - q⌋ : ℚ) = 1 / 2 := by
        rw [hfr2, heq]
        norm_num
      by_cases he : ⌊q⌋ % 2 = 0
      · have r1 : roundHE q = ⌊q⌋ := roundHE_tie_even heq he
        have r2 : roundHE ((n : ℚ) - q) = ⌊(n : ℚ) - q⌋ + 1 :=
          roundHE_tie_odd hfr2' (by rw [hf2]; omega)
        rw [r1, r2, hf2]
        omega
      · have r1 : roundHE q = ⌊q⌋ + 1 := roundHE_tie_odd heq he
        have r2 : roundHE ((n : ℚ) - q) = ⌊(n : ℚ) - q⌋ :=
          roundHE_tie_even hfr2' (by rw [hf2]; omega)
        rw [r1, r2, hf2]
        omega
    · have r1 : roundHE q = ⌊q⌋ + 1 := roundHE_eq_floor_add_one hgt
      have r2 : roundHE ((n : ℚ) - q) = ⌊(n : ℚ) - q⌋ :=
        roundHE_eq_floor (by rw [hfr2]; linarith)
      rw [r1, r2, hf2]
      omega

theorem pyRound2_add_compl (q : ℚ) : pyRound2 q + pyRound2 (1 - q) = 1 := by
  unfold pyRound2
  have e : (100 : ℚ) * (1 - q) = ((100 : ℤ) : ℚ) - 100 * q := by
    push_cast
    ring
  rw [e, div_add_div_same,
    show (roundHE (100 * q) : ℚ) + (roundHE (((100 : ℤ) : ℚ) - 100 * q) : ℚ)
        = ((roundHE (100 * q) + roundHE (((100 : ℤ) : ℚ) - 100 * q) : ℤ) : ℚ) by push_cast; ring,
    roundHE_add_sub 100 (100 * q) (by norm_num)]
  norm_num

theorem roundHE_eq_zero {q : ℚ} (h1 : -(1 / 2) ≤ q) (h2 : q < 1 / 2) :
    roundHE q = 0 := by
  rcases lt_or_le q 0 with hneg | hpos
  · have hfl : ⌊q⌋ = -1 := by
      rw [Int.floor_eq_iff]
      constructor <;> push_cast <;> linarith
    rcases eq_or_lt_of_le h1 with heq | hgt
    · have hfr : q - (⌊q⌋ : ℚ) = 1 / 2 := by
        rw [hfl]
        push_cast
        linarith
      rw [roundHE_tie_odd hfr (by rw [hfl]; decide), hfl]
      norm_num
    · have hfr : 1 / 2 < q - (⌊q⌋ : ℚ) := by
        rw [hfl]
        push_cast
        linarith
      rw [roundHE_eq_floor_add_one hfr, hfl]
      norm_num
  · have hfl : ⌊q⌋ = 0 := by
      rw [Int.floor_eq_iff]
      constructor <;> push_cast <;> linarith
    rw [roundHE_eq_floor (by rw [hfl]; push_cast; linarith), hfl]

theorem pyRound2_eq_zero {q : ℚ} (h1 : -(1 / 200) ≤ q) (h2 : q < 1 / 200) :
    pyRound2 q = 0 := by
  unfold pyRound2
  rw [roundHE_eq_zero (by linarith) (by linarith)]
  norm_num

theorem roundHEEval33 : roundHE ((37154696925806592 : ℚ) / 5) = 7430939385161318 := by
  have hfl : ⌊(37154696925806592 : ℚ) / 5⌋ = 7430939385161318 := by norm_num
  have hcond : (37154696925806592 : ℚ) / 5 - (⌊(37154696925806592 : ℚ) / 5⌋ : ℚ) < 1 / 2 := by
    rw [hfl]
    norm_num
  rw [roundHE_eq_floor hcond, hfl]

theorem roundHEEval7 : roundHE ((31525197391593472 : ℚ) / 5) = 6305039478318694 := by
  have hfl : ⌊(31525197391593472 : ℚ) / 5⌋ = 6305039478318694 := by norm_num
  have hcond : (31525197391593472 : ℚ) / 5 - (⌊(31525197391593472 : ℚ) / 5⌋ : ℚ) < 1 / 2 := by
    rw [hfl]
    norm_num
  rw [roundHE_eq_floor hcond, hfl]

theorem roundHEEval1000 : roundHE ((576460752303423488 : ℚ) / 125) = 4611686018427388 := by
  have hfl : ⌊(576460752303423488 : ℚ) / 125⌋ = 4611686018427387 := by norm_num
  have hcond : 1 / 2 < (576460752303423488 : ℚ) / 125 - (⌊(576460752303423488 : ℚ) / 125⌋ : ℚ) := by
    rw [hfl]
    norm_num
  rw [roundHE_eq_floor_add_one hcond, hfl]
  norm_num

/-- Binary64 value of `33/40 = 0.825`: just below the half-cent tie
(Python: `(33/40).as_integer_ratio()` gives the same fraction). -/
theorem floatApproxEval33 :
    floatApprox (33 / 40 : ℚ) = 3715469692580659 / 4503599627370496 := by
  have h0 : (33 / 40 : ℚ) ≠ 0 := by norm_num
  simp only [floatApprox, if_neg h0]
  norm_num [natLog2Eval33, natLog2Eval40, roundHEEval33]

/-- Binary64 value of `7/40 = 0.175`: just below the half-cent tie. -/
theorem floatApproxEval7 :
    floatApprox (7 / 40 : ℚ) = 3152519739159347 / 18014398509481984 := by
  have h0 : (7 / 40 : ℚ) ≠ 0 := by norm_num
  simp only [floatApprox, if_neg h0]
  norm_num [natLog2Eval7, natLog2Eval40, roundHEEval7]

/-- Binary64 value of `-1/1000 = -0.001`. -/
theorem floatApproxEval1000 :
    floatApprox (-1 / 1000 : ℚ) = -(1152921504606847 / 1152921504606846976) := by
  have h0 : (-1 / 1000 : ℚ) ≠ 0 := by norm_num
  simp only [floatApprox, if_neg h0]
  norm_num [natLog2Eval1, natLog2Eval1000, roundHEEval1000]

/-- C4 counterexample: churn rate is NOT negative for every `within > before`.
With `before = 1000`, `within = 1001` the quotient is `-0.001`, which rounds
to zero at two decimal places, in the exact model and in the binary64 model
alike (Python: `round(-0.001, 2) == -0.0`). -/
theorem churn_rate_not_negative_on_small_growth :
    (1000 : ℤ) < 1001 ∧
    ActiveTherapistRate.getChurnRate 1000 1001 = 0 ∧
    ActiveTherapistRate.getChurnRateFloat 1000 1001 = 0 := by
  refine ⟨by norm_num, ?_, ?_⟩
  · norm_num [ActiveTherapistRate.getChurnRate, pyRound2, roundHE]
  · rw [ActiveTherapistRate.getChurnRateFloat, if_neg (by norm_num : (1000 : ℤ) ≠ 0)]
    rw [show (((1000 : ℤ) : ℚ) - ((1001 : ℤ) : ℚ)) / ((1000 : ℤ) : ℚ) = -1 / 1000 by norm_num]
    rw [floatApproxEval1000]
    exact pyRound2_eq_zero (by norm_num) (by norm_num)

/-- C4 (amended): for `before > 0` the rates are the two-decimal roundings
of `(before - within) / before` and `within / before`; churn is not clamped
to `[0, 1]` and, in the exact-rounding model, is negative exactly when
`within` exceeds `before` by more than half a percent of `before`
(`before < 200 * (within - before)`); smaller growth rounds to `0`. -/
theorem churn_rate_formula_and_threshold (b w : ℤ) (hb : 0 < b) :
    ActiveTherapistRate.getChurnRate b w = pyRound2 (((b : ℚ) - w) / b) ∧
    ActiveTherapistRate.getRetentionRate b w = pyRound2 ((w : ℚ) / b) ∧
    (ActiveTherapistRate.getChurnRate b w < 0 ↔ b < 200 * (w - b)) := by
  have hbq : (0 : ℚ) < (b : ℚ) := by exact_mod_cast hb
  refine ⟨by simp [ActiveTherapistRate.getChurnRate, hb.ne'],
    by simp [ActiveTherapistRate.getRetentionRate, hb.ne'], ?_⟩
  rw [ActiveTherapistRate.getChurnRate, if_neg hb.ne']
  unfold pyRound2
  have h100 : (0 : ℚ) < 100 := by norm_num
  rw [div_lt_iff₀ h100, zero_mul]
  rw [show ((roundHE (100 * (((b : ℚ) - w) / b)) : ℚ) < 0) ↔
      roundHE (100 * (((b : ℚ) - w) / b)) < 0 by exact_mod_cast Iff.rfl]
  rw [roundHE_neg_iff]
  rw [show (100 : ℚ) * (((b : ℚ) - w) / b) = (100 * ((b : ℚ) - w)) / b by ring]
  rw [div_lt_iff₀ hbq]
  constructor
  · intro h
    have : (200 : ℚ) * ((w : ℚ) - b) > b := by linarith
    exact_mod_cast this
  · intro h
    have : (b : ℚ) < 200 * ((w : ℚ) - b) := by exact_mod_cast h
    linarith

/-- Witness for the amended C4 theorem: `before = 10`, `within = 20` gives
churn rate `-1` (therapist count doubled), which is indeed negative. -/
theorem churn_rate_formula_and_threshold_witness :
    ActiveTherapistRate.getChurnRate 10 20 = pyRound2 (((10 : ℚ) - 20) / 10) ∧
    (ActiveTherapistRate.getChurnRate 10 20 < 0 ↔ (10 : ℤ) < 200 * (20 - 10)) ∧
    ActiveTherapistRate.getChurnRate 10 20 = -1 :=
  ⟨(churn_rate_formula_and_threshold 10 20 (by norm_num)).1,
   (churn_rate_formula_and_threshold 10 20 (by norm_num)).2.2,
   by norm_num [ActiveTherapistRate.getChurnRate, pyRound2, roundHE]⟩

/-- C10 counterexample: under binary64 evaluation (what the Python code
does) the two roundings do not always compensate.  With `before = 40`,
`within = 7` both quotients `0.825` and `0.175` are half-cent ties whose
nearest doubles lie just below the tie, so both round down:
`round(0.825, 2) + round(0.175, 2) = 0.82 + 0.17 = 0.99 ≠ 1`. -/
theorem churn_retention_float_not_complementary :
    ActiveTherapistRate.getChurnRateFloat 40 7 +
      ActiveTherapistRate.getRetentionRateFloat 40 7 ≠ 1 := by
  have hc : ActiveTherapistRate.getChurnRateFloat 40 7 = 82 / 100 := by
    rw [ActiveTherapistRate.getChurnRateFloat, if_neg (by norm_num : (40 : ℤ) ≠ 0)]
    rw [show (((40 : ℤ) : ℚ) - ((7 : ℤ) : ℚ)) / ((40 : ℤ) : ℚ) = 33 / 40 by norm_num]
    rw [floatApproxEval33, pyRound2]
    have hfl : ⌊(100 : ℚ) * (3715469692580659 / 4503599627370496)⌋ = 82 := by norm_num
    rw [roundHE_eq_floor (by rw [hfl]; norm_num), hfl]
    norm_num
  have hr : ActiveTherapistRate.getRetentionRateFloat 40 7 = 17 / 100 := by
    rw [ActiveTherapistRate.getRetentionRateFloat, if_neg (by norm_num : (40 : ℤ) ≠ 0)]
    rw [show ((7 : ℤ) : ℚ) / ((40 : ℤ) : ℚ) = 7 / 40 by norm_num]
    rw [floatApproxEval7, pyRound2]
    have hfl : ⌊(100 : ℚ) * (3152519739159347 / 18014398509481984)⌋ = 17 := by norm_num
    rw [roundHE_eq_floor (by rw [hfl]; norm_num), hfl]
    norm_num
  rw [hc, hr]
  norm_num

/-- C10 (amended): with exact decimal round-half-to-even applied to the
exact quotients, churn and retention rates are complementary for every
nonzero before-period count: the two roundings compensate exactly,
including at half-cent ties.  (Under Python's binary64 evaluation this
fails at ties whose float images fall on the same side, e.g. 40/7.) -/
theorem churn_retention_complementarity (b w : ℤ) (hb : b ≠ 0) :
    ActiveTherapistRate.getChurnRate b w +
      ActiveTherapistRate.getRetentionRate b w = 1 := by
  have hbq : (b : ℚ) ≠ 0 := Int.cast_ne_zero.mpr hb
  rw [ActiveTherapistRate.getChurnRate, ActiveTherapistRate.getRetentionRate,
    if_neg hb, if_neg hb]
  have e : ((b : ℚ) - w) / b = 1 - (w : ℚ) / b := by
    field_simp
  rw [e]
  have h := pyRound2_add_compl ((w : ℚ) / b)
  linarith

/-- Witness for the amended C10 theorem at `before = 3`, `within = 5`:
`-0.67 + 1.67 = 1` exactly. -/
theorem churn_retention_complementarity_witness :
    ActiveTherapistRate.getChurnRate 3 5 +
      ActiveTherapistRate.getRetentionRate 3 5 = 1 :=
  churn_retention_complementarity 3 5 (by norm_num)

/-! ## `src/data_processing/processor_app/active_therapist.py`

`OrgActiveTherProcessor.set_total_thers_before_period(dataframe, period_type)`
splits the dataframe into one sub-dataframe per distinct `organization_id`
(in order of first occurrence, preserving row order — pandas
`drop_duplicates` keeps the first occurrence and boolean filtering is
stable), runs `_set_value_before_period` on each, and concatenates the
results.  `_set_value_before_period` walks the rows in order: the first row
gets `active_ther_b_period = inactive_ther_b_period = 0`; every later row
copies the previous row's `active_ther`/`inactive_ther` when the gap
classifier for the period type accepts the two `period_end` values, and
gets zeros otherwise.  Dataframes are modelled as lists of rows. -/

/-- One row of the aggregate dataframe (columns of the weekly/monthly/yearly
active-therapist input files). -/
structure AggRow where
  organization_id : Int
  period_start : Date
  period_end : Date
  active_ther : Int
  inactive_ther : Int
  total_ther : Int
  active_ther_b_period : Int
  inactive_ther_b_period : Int
deriving DecidableEq, Repr

namespace OrgActiveTherProcessor

/-- Dispatch on `period_type` to the matching gap classifier (any other
string falls through to the final `_set_with_zero`). -/
def gapCheck (period_type : String) (prev cur : Date) : Bool :=
  if period_type = "weekly" then is_one_week_diff prev cur
  else if period_type = "monthly" then is_one_month_diff prev cur
  else if period_type = "yearly" then is_one_year_diff prev cur
  else false

/-- Body of the loop of `_set_value_before_period` for a non-first row:
`_set_with_prev_row` when the gap classifier accepts, `_set_with_zero`
otherwise. -/
def applyRule (period_type : String) (prev r : AggRow) : AggRow :=
  if gapCheck period_type prev.period_end r.period_end then
    { r with active_ther_b_period := prev.active_ther,
             inactive_ther_b_period := prev.inactive_ther }
  else
    { r with active_ther_b_period := 0, inactive_ther_b_period := 0 }

/-- The `_set_with_zero` update applied to a row. -/
def zeroCarry (r : AggRow) : AggRow :=
  { r with active_ther_b_period := 0, inactive_ther_b_period := 0 }

/-- Tail of `_set_value_before_period`: `prev` is the (already updated)
previous row of the mutated dataframe. -/
def setValueBeforePeriodAux (period_type : String) (prev : AggRow) :
    List AggRow → List AggRow
  | [] => []
  | r :: rest =>
    let updated := applyRule period_type prev r
    updated :: setValueBeforePeriodAux period_type updated rest

/-- Embedding of `_set_value_before_period` on one per-organization
sub-dataframe. -/
def setValueBeforePeriod (period_type : String) : List AggRow → List AggRow
  | [] => []
  | r :: rest => zeroCarry r :: setValueBeforePeriodAux period_type (zeroCarry r) rest

/-- Distinct values in order of first occurrence
(`dataframe['organization_id'].drop_duplicates()`). -/
def orgIdsDedup : List Int → List Int
  | [] => []
  | x :: xs => x :: orgIdsDedup (xs.filter (fun y => y != x))
termination_by l => l.length
decreasing_by
  simp only [List.length_cons]
  exact Nat.lt_succ_of_le (List.length_filter_le _ _)

/-- The sub-dataframe of rows of one organization
(`dataframe[dataframe['organization_id'] == org_id]`). -/
def groupOf (rows : List AggRow) (oid : Int) : List AggRow :=
  rows.filter (fun r => r.organization_id == oid)

/-- The distinct organization ids of a dataframe, in first-occurrence order. -/
def orgIds (rows : List AggRow) : List Int :=
  orgIdsDedup (rows.map (fun r => r.organization_id))

/-- Embedding of `set_total_thers_before_period`: split per organization,
update each sub-dataframe, concatenate (`pd.concat`). -/
def set_total_thers_before_period (rows : List AggRow) (period_type : String) :
    List AggRow :=
  ((orgIds rows).map (fun oid => setValueBeforePeriod period_type (groupOf rows oid))).flatten

/-- The columns `_set_value_before_period` never writes. -/
def stripCarry (r : AggRow) : Int × Date × Date × Int × Int × Int :=
  (r.organization_id, r.period_start, r.period_end, r.active_ther,
   r.inactive_ther, r.total_ther)

/-- The two before-period columns it writes. -/
def carryPair (r : AggRow) : Int × Int :=
  (r.active_ther_b_period, r.inactive_ther_b_period)

theorem applyRule_stripCarry (pt : String) (p r : AggRow) :
    stripCarry (applyRule pt p r) = stripCarry r := by
  unfold applyRule stripCarry
  split <;> rfl

theorem applyRule_period_end (pt : String) (p r : AggRow) :
    (applyRule pt p r).period_end = r.period_end := by
  unfold applyRule
  split <;> rfl

theorem applyRule_active (pt : String) (p r : AggRow) :
    (applyRule pt p r).active_ther = r.active_ther := by
  unfold applyRule
  split <;> rfl

theorem applyRule_inactive (pt : String) (p r : AggRow) :
    (applyRule pt p r).inactive_ther = r.inactive_ther := by
  unfold applyRule
  split <;> rfl

theorem applyRule_org (pt : String) (p r : AggRow) :
    (applyRule pt p r).organization_id = r.organization_id := by
  unfold applyRule
  split <;> rfl

theorem applyRule_carryPair (pt : String) (p r : AggRow) :
    carryPair (applyRule pt p r)
      = if gapCheck pt p.period_end r.period_end then (p.active_ther, p.inactive_ther)
        else (0, 0) := by
  unfold applyRule carryPair
  split <;> rfl

/-- The rule reads only `period_end`, `active_ther`, `inactive_ther` of the
previous row — the three fields the pass never modifies. -/
theorem applyRule_congr (pt : String) {p q : AggRow}
    (hpe : p.period_end = q.period_end) (ha : p.active_ther = q.active_ther)
    (hi : p.inactive_ther = q.inactive_ther) (r : AggRow) :
    applyRule pt p r = applyRule pt q r := by
  unfold applyRule
  rw [hpe, ha, hi]

theorem setAux_congr (pt : String) {p q : AggRow} (g : List AggRow)
    (hpe : p.period_end = q.period_end) (ha : p.active_ther = q.active_ther)
    (hi : p.inactive_ther = q.inactive_ther) :
    setValueBeforePeriodAux pt p g = setValueBeforePeriodAux pt q g := by
  cases g with
  | nil => rfl
  | cons r rest =>
    show applyRule pt p r :: setValueBeforePeriodAux pt (applyRule pt p r) rest
      = applyRule pt q r :: setValueBeforePeriodAux pt (applyRule pt q r) rest
    rw [applyRule_congr pt hpe ha hi]

/-- Unfolding the pass one row: the previous row passed on agrees with the
original row on every field the rule reads, so the original row can stand
in for it. -/
theorem setAux_cons (pt : String) (prev r : AggRow) (rest : List AggRow) :
    setValueBeforePeriodAux pt prev (r :: rest)
      = applyRule pt prev r :: setValueBeforePeriodAux pt r rest := by
  show applyRule pt prev r :: setValueBeforePeriodAux pt (applyRule pt prev r) rest = _
  rw [setAux_congr pt rest (applyRule_period_end pt prev r) (applyRule_active pt prev r)
    (applyRule_inactive pt prev r)]

theorem zeroCarry_stripCarry (r : AggRow) : stripCarry (zeroCarry r) = stripCarry r := rfl

theorem zeroCarry_period_end (r : AggRow) : (zeroCarry r).period_end = r.period_end := rfl

theorem zeroCarry_active (r : AggRow) : (zeroCarry r).active_ther = r.active_ther := rfl

theorem zeroCarry_inactive (r : AggRow) : (zeroCarry r).inactive_ther = r.inactive_ther := rfl

theorem zeroCarry_org (r : AggRow) : (zeroCarry r).organization_id = r.organization_id := rfl

theorem setValueBeforePeriod_cons (pt : String) (r : AggRow) (rest : List AggRow) :
    setValueBeforePeriod pt (r :: rest)
      = zeroCarry r :: setValueBeforePeriodAux pt r rest := by
  show zeroCarry r :: setValueBeforePeriodAux pt (zeroCarry r) rest = _
  rw [setAux_congr pt rest (zeroCarry_period_end r) (zeroCarry_active r) (zeroCarry_inactive r)]

theorem setAux_length (pt : String) (g : List AggRow) :
    ∀ prev, (setValueBeforePeriodAux pt prev g).length = g.length := by
  induction g with
  | nil => intro prev; rfl
  | cons r rest ih =>
    intro prev
    rw [setAux_cons]
    simp [ih]

theorem setAux_stripCarry_get (pt : String) (g : List AggRow) :
    ∀ prev (i : Nat),
      ((setValueBeforePeriodAux pt prev g)[i]?).map stripCarry
        = (g[i]?).map stripCarry := by
  induction g with
  | nil => intro prev i; rfl
  | cons r rest ih =>
    intro prev i
    rw [setAux_cons]
    cases i with
    | zero => simp [applyRule_stripCarry]
    | succ j => simpa using ih r j

theorem setAux_get_zero (pt : String) (prev r : AggRow) (g : List AggRow)
    (h : g[0]? = some r) :
    (setValueBeforePeriodAux pt prev g)[0]? = some (applyRule pt prev r) := by
  cases g with
  | nil => simp at h
  | cons x rest =>
    simp only [List.getElem?_cons_zero, Option.some.injEq] at h
    subst h
    rw [setAux_cons]
    simp

theorem setAux_get_succ (pt : String) (g : List AggRow) :
    ∀ prev (i : Nat) (pr cur : AggRow), g[i]? = some pr → g[i + 1]? = some cur →
      (setValueBeforePeriodAux pt prev g)[i + 1]? = some (applyRule pt pr cur) := by
  induction g with
  | nil => intro prev i pr cur h; simp at h
  | cons r rest ih =>
    intro prev i pr cur hpr hcur
    rw [setAux_cons]
    cases i with
    | zero =>
      simp only [List.getElem?_cons_zero, Option.some.injEq] at hpr
      subst hpr
      simp only [List.getElem?_cons_succ] at hcur
      simpa using setAux_get_zero pt r cur rest hcur
    | succ j =>
      simp only [List.getElem?_cons_succ] at hpr hcur
      simpa using ih r j pr cur hpr hcur

end OrgActiveTherProcessor

namespace OrgActiveTherProcessor

theorem svbp_length (pt : String) (g : List AggRow) :
    (setValueBeforePeriod pt g).length = g.length := by
  cases g with
  | nil => rfl
  | cons r rest =>
    rw [setValueBeforePeriod_cons]
    simp [setAux_length]

theorem svbp_stripCarry_get (pt : String) (g : List AggRow) (i : Nat) :
    ((setValueBeforePeriod pt g)[i]?).map stripCarry = (g[i]?).map stripCarry := by
  cases g with
  | nil => rfl
  | cons r rest =>
    rw [setValueBeforePeriod_cons]
    cases i with
    | zero => simp [zeroCarry_stripCarry]
    | succ j => simpa using setAux_stripCarry_get pt rest r j

theorem svbp_get_zero (pt : String) (g : List AggRow) (h : 0 < g.length) :
    ((setValueBeforePeriod pt g)[0]?).map carryPair = some (0, 0) := by
  cases g with
  | nil => simp at h
  | cons r rest =>
    rw [setValueBeforePeriod_cons]
    simp [carryPair, zeroCarry]

theorem svbp_get_succ (pt : String) (g : List AggRow) (i : Nat) (pr cur : AggRow)
    (hpr : g[i]? = some pr) (hcur : g[i + 1]? = some cur) :
    ((setValueBeforePeriod pt g)[i + 1]?).map carryPair
      = some (if gapCheck pt pr.period_end cur.period_end
              then (pr.active_ther, pr.inactive_ther) else (0, 0)) := by
  cases g with
  | nil => simp at hpr
  | cons r rest =>
    rw [setValueBeforePeriod_cons]
    rw [List.getElem?_cons_succ]
    cases i with
    | zero =>
      simp only [List.getElem?_cons_zero, Option.some.injEq] at hpr
      subst hpr
      simp only [List.getElem?_cons_succ] at hcur
      rw [setAux_get_zero pt r cur rest hcur]
      simp [applyRule_carryPair]
    | succ j =>
      simp only [List.getElem?_cons_succ] at hpr hcur
      rw [setAux_get_succ pt rest r j pr cur hpr hcur]
      simp [applyRule_carryPair]

end OrgActiveTherProcessor

/-- C1: `set_total_thers_before_period` is the concatenation, over the
distinct organization ids in first-occurrence order, of
`_set_value_before_period` applied to that organization's rows; on any
sub-dataframe the pass keeps every column except the two before-period
columns, assigns `(0, 0)` to the first row, and assigns each later row the
previous row's `(active_ther, inactive_ther)` exactly when the gap
classifier for the granularity accepts the two `period_end` values, and
`(0, 0)` otherwise.  (No sortedness hypothesis is needed: the pass applies
this rule to whatever row order it is given, in particular to groups sorted
by `period_start` then `period_end`.) -/
theorem set_total_thers_before_period_spec (rows : List AggRow) (pt : String)
    (g : List AggRow) :
    OrgActiveTherProcessor.set_total_thers_before_period rows pt
      = ((OrgActiveTherProcessor.orgIds rows).map
          (fun oid => OrgActiveTherProcessor.setValueBeforePeriod pt
            (OrgActiveTherProcessor.groupOf rows oid))).flatten
    ∧ (OrgActiveTherProcessor.setValueBeforePeriod pt g).length = g.length
    ∧ (∀ i : Nat,
        ((OrgActiveTherProcessor.setValueBeforePeriod pt g)[i]?).map
            OrgActiveTherProcessor.stripCarry
          = (g[i]?).map OrgActiveTherProcessor.stripCarry)
    ∧ (0 < g.length →
        ((OrgActiveTherProcessor.setValueBeforePeriod pt g)[0]?).map
            OrgActiveTherProcessor.carryPair = some (0, 0))
    ∧ (∀ (i : Nat) (pr cur : AggRow), g[i]? = some pr → g[i + 1]? = some cur →
        ((OrgActiveTherProcessor.setValueBeforePeriod pt g)[i + 1]?).map
            OrgActiveTherProcessor.carryPair
          = some (if OrgActiveTherProcessor.gapCheck pt pr.period_end cur.period_end
                  then (pr.active_ther, pr.inactive_ther) else (0, 0))) :=
  ⟨rfl, OrgActiveTherProcessor.svbp_length pt g,
   OrgActiveTherProcessor.svbp_stripCarry_get pt g,
   OrgActiveTherProcessor.svbp_get_zero pt g,
   fun i pr cur hpr hcur => OrgActiveTherProcessor.svbp_get_succ pt g i pr cur hpr hcur⟩

/-- Witness for C1 on the spec's end-to-end scenario: organization 42 with
weekly records ending 2023-01-07 (10 active, 2 inactive), 2023-01-14
(12, 1) and 2023-01-28 (8, 5; two-week gap).  Carry-forward gives
(0,0), (10,2), (0,0). -/
theorem set_total_thers_before_period_spec_witness :
    ((OrgActiveTherProcessor.setValueBeforePeriod "weekly"
        [⟨42, ⟨2023, 1, 1⟩, ⟨2023, 1, 7⟩, 10, 2, 12, 0, 0⟩,
         ⟨42, ⟨2023, 1, 8⟩, ⟨2023, 1, 14⟩, 12, 1, 13, 0, 0⟩,
         ⟨42, ⟨2023, 1, 22⟩, ⟨2023, 1, 28⟩, 8, 5, 13, 0, 0⟩])[0]?).map
        OrgActiveTherProcessor.carryPair = some (0, 0)
    ∧ ((OrgActiveTherProcessor.setValueBeforePeriod "weekly"
        [⟨42, ⟨2023, 1, 1⟩, ⟨2023, 1, 7⟩, 10, 2, 12, 0, 0⟩,
         ⟨42, ⟨2023, 1, 8⟩, ⟨2023, 1, 14⟩, 12, 1, 13, 0, 0⟩,
         ⟨42, ⟨2023, 1, 22⟩, ⟨2023, 1, 28⟩, 8, 5, 13, 0, 0⟩])[1]?).map
        OrgActiveTherProcessor.carryPair = some (10, 2)
    ∧ ((OrgActiveTherProcessor.setValueBeforePeriod "weekly"
        [⟨42, ⟨2023, 1, 1⟩, ⟨2023, 1, 7⟩, 10, 2, 12, 0, 0⟩,
         ⟨42, ⟨2023, 1, 8⟩, ⟨2023, 1, 14⟩, 12, 1, 13, 0, 0⟩,
         ⟨42, ⟨2023, 1, 22⟩, ⟨2023, 1, 28⟩, 8, 5, 13, 0, 0⟩])[2]?).map
        OrgActiveTherProcessor.carryPair = some (0, 0) := by
  have h := set_total_thers_before_period_spec []
    "weekly"
    [⟨42, ⟨2023, 1, 1⟩, ⟨2023, 1, 7⟩, 10, 2, 12, 0, 0⟩,
     ⟨42, ⟨2023, 1, 8⟩, ⟨2023, 1, 14⟩, 12, 1, 13, 0, 0⟩,
     ⟨42, ⟨2023, 1, 22⟩, ⟨2023, 1, 28⟩, 8, 5, 13, 0, 0⟩]
  refine ⟨h.2.2.2.1 (by decide), ?_, ?_⟩
  · have h2 := h.2.2.2.2 0 _ _ rfl rfl
    rw [if_pos (by decide)] at h2
    exact h2
  · have h3 := h.2.2.2.2 1 _ _ rfl rfl
    rw [if_neg (by decide)] at h3
    exact h3

namespace OrgActiveTherProcessor

theorem zeroCarry_zeroCarry (r : AggRow) : zeroCarry (zeroCarry r) = zeroCarry r := rfl

/-- The rule overwrites exactly the fields it ignores in its row argument,
so re-applying it (with any previous row) is absorbed. -/
theorem applyRule_applyRule (pt : String) (p q r : AggRow) :
    applyRule pt p (applyRule pt q r) = applyRule pt p r := by
  obtain ⟨o, ps, pe, a, i, t, ab, ib⟩ := r
  by_cases hq : gapCheck pt q.period_end pe = true
  · simp [applyRule, hq]
  · simp [applyRule, hq]

theorem setAux_idem (pt : String) (g : List AggRow) :
    ∀ (p q : AggRow), q.period_end = p.period_end → q.active_ther = p.active_ther →
      q.inactive_ther = p.inactive_ther →
      setValueBeforePeriodAux pt q (setValueBeforePeriodAux pt p g)
        = setValueBeforePeriodAux pt p g := by
  induction g with
  | nil => intros; rfl
  | cons r rest ih =>
    intro p q hpe ha hi
    rw [setAux_cons pt p r rest, setAux_cons pt q (applyRule pt p r)]
    have h2 : applyRule pt q (applyRule pt p r) = applyRule pt p r := by
      rw [applyRule_congr pt hpe ha hi, applyRule_applyRule]
    rw [h2]
    congr 1
    exact ih r (applyRule pt p r) (applyRule_period_end pt p r)
      (applyRule_active pt p r) (applyRule_inactive pt p r)

/-- Per-group idempotence of `_set_value_before_period`. -/
theorem svbp_idem (pt : String) (g : List AggRow) :
    setValueBeforePeriod pt (setValueBeforePeriod pt g) = setValueBeforePeriod pt g := by
  cases g with
  | nil => rfl
  | cons r rest =>
    rw [setValueBeforePeriod_cons pt r rest, setValueBeforePeriod_cons pt (zeroCarry r),
      zeroCarry_zeroCarry]
    congr 1
    exact setAux_idem pt rest r (zeroCarry r) (zeroCarry_period_end r)
      (zeroCarry_active r) (zeroCarry_inactive r)

theorem setAux_map_org (pt : String) (g : List AggRow) :
    ∀ prev, (setValueBeforePeriodAux pt prev g).map (fun r => r.organization_id)
      = g.map (fun r => r.organization_id) := by
  induction g with
  | nil => intro prev; rfl
  | cons r rest ih =>
    intro prev
    rw [setAux_cons]
    simp [applyRule_org, ih]

theorem svbp_map_org (pt : String) (g : List AggRow) :
    (setValueBeforePeriod pt g).map (fun r => r.organization_id)
      = g.map (fun r => r.organization_id) := by
  cases g with
  | nil => rfl
  | cons r rest =>
    rw [setValueBeforePeriod_cons]
    simp [zeroCarry_org, setAux_map_org]

theorem org_mem_of_mem_svbp {pt : String} {g : List AggRow} {r : AggRow}
    (h : r ∈ setValueBeforePeriod pt g) :
    r.organization_id ∈ g.map (fun s => s.organization_id) := by
  have h2 : r.organization_id ∈ (setValueBeforePeriod pt g).map (fun s => s.organization_id) :=
    List.mem_map_of_mem _ h
  rwa [svbp_map_org] at h2

theorem org_eq_of_mem_groupOf {rows : List AggRow} {oid : Int} {r : AggRow}
    (h : r ∈ groupOf rows oid) : r.organization_id = oid := by
  rw [groupOf, List.mem_filter] at h
  simpa [beq_iff_eq] using h.2

theorem mem_orgIdsDedup (a : Int) (l : List Int) : a ∈ orgIdsDedup l ↔ a ∈ l := by
  induction l using orgIdsDedup.induct with
  | case1 => simp [orgIdsDedup]
  | case2 x xs ih =>
    rw [orgIdsDedup]
    simp only [List.mem_cons, ih, List.mem_filter, bne_iff_ne, ne_eq]
    by_cases hax : a = x
    · simp [hax]
    · simp [hax]

theorem orgIdsDedup_nodup (l : List Int) : (orgIdsDedup l).Nodup := by
  induction l using orgIdsDedup.induct with
  | case1 => simp [orgIdsDedup]
  | case2 x xs ih =>
    rw [orgIdsDedup]
    simp only [List.nodup_cons]
    refine ⟨?_, ih⟩
    intro hx
    rw [mem_orgIdsDedup, List.mem_filter] at hx
    simp at hx

theorem filter_bne_replicate (k : Nat) (a : Int) :
    (List.replicate k a).filter (fun y => y != a) = [] := by
  induction k with
  | zero => rfl
  | succ n ih => simp [List.replicate_succ, ih]

theorem orgIdsDedup_flatten_blocks (B : Int → List Int) :
    ∀ (ids : List Int), ids.Nodup → (∀ a ∈ ids, B a ≠ [] ∧ ∀ b ∈ B a, b = a) →
      orgIdsDedup ((ids.map B).flatten) = ids := by
  intro ids
  induction ids with
  | nil => intro _ _; simp [orgIdsDedup]
  | cons a ids ih =>
    intro hnd hB
    obtain ⟨hne, hall⟩ := hB a (by simp)
    have hrep := List.eq_replicate_of_mem hall
    obtain ⟨k, hk⟩ : ∃ k, (B a).length = k + 1 := by
      cases hlen : (B a).length with
      | zero => exact absurd (List.length_eq_zero.mp hlen) hne
      | succ k => exact ⟨k, rfl⟩
    rw [List.map_cons, List.flatten_cons, hrep, hk, List.replicate_succ, List.cons_append]
    rw [orgIdsDedup]
    rw [List.filter_append, filter_bne_replicate, List.nil_append]
    have hfl : (List.flatten (ids.map B)).filter (fun y => y != a)
        = List.flatten (ids.map B) := by
      rw [List.filter_eq_self]
      intro b hb
      rw [List.mem_flatten] at hb
      obtain ⟨l, hl, hbl⟩ := hb
      rw [List.mem_map] at hl
      obtain ⟨o, ho, rfl⟩ := hl
      have hbo : b = o := (hB o (by simp [ho])).2 b hbl
      have hoa : o ≠ a := by
        rintro rfl
        exact (List.nodup_cons.mp hnd).1 ho
      simp [hbo, hoa]
    rw [hfl, ih (List.nodup_cons.mp hnd).2 (fun o ho => hB o (by simp [ho]))]

theorem groupOf_flatten (L : List (List AggRow)) (oid : Int) :
    groupOf L.flatten oid = (L.map (fun l => groupOf l oid)).flatten := by
  induction L with
  | nil => rfl
  | cons l ls ih =>
    rw [List.flatten_cons, List.map_cons, List.flatten_cons,
      show groupOf (l ++ ls.flatten) oid = groupOf l oid ++ groupOf ls.flatten oid
        from List.filter_append _ _, ih]

theorem flatten_groupOf_blocks (B : Int → List AggRow) (oid : Int) :
    ∀ (ids : List Int), ids.Nodup → oid ∈ ids →
      (∀ o ∈ ids, ∀ r ∈ B o, r.organization_id = o) →
      ((ids.map (fun o => groupOf (B o) oid)).flatten) = B oid := by
  intro ids
  induction ids with
  | nil => intro _ h; simp at h
  | cons a ids ih =>
    intro hnd hmem hall
    rw [List.map_cons, List.flatten_cons]
    by_cases hao : a = oid
    · subst hao
      have h1 : groupOf (B a) a = B a := by
        rw [groupOf, List.filter_eq_self]
        intro r hr
        simp [hall a (by simp) r hr]
      have h2 : (ids.map (fun o => groupOf (B o) a)).flatten = [] := by
        rw [List.flatten_eq_nil_iff]
        intro l hl
        rw [List.mem_map] at hl
        obtain ⟨o, ho, rfl⟩ := hl
        rw [groupOf, List.filter_eq_nil_iff]
        intro r hr
        have he : r.organization_id = o := hall o (by simp [ho]) r hr
        have hoa : o ≠ a := by
          rintro rfl
          exact (List.nodup_cons.mp hnd).1 ho
        simp [he, hoa]
      rw [h1, h2, List.append_nil]
    · have h1 : groupOf (B a) oid = [] := by
        rw [groupOf, List.filter_eq_nil_iff]
        intro r hr
        have he : r.organization_id = a := hall a (by simp) r hr
        simp [he, hao]
      have hmem2 : oid ∈ ids := by
        rcases List.mem_cons.mp hmem with h | h
        · exact absurd h.symm hao
        · exact h
      rw [h1, List.nil_append]
      exact ih (List.nodup_cons.mp hnd).2 hmem2 (fun o ho => hall o (by simp [ho]))

end OrgActiveTherProcessor

/-- C7: applying `set_total_thers_before_period` to its own output gives the
same output — the pass recomputes the two before-period columns from
columns it never modifies, grouping is stable, and the organization ids of
the output are those of the input in the same first-occurrence order.
(This holds for every input, in particular for inputs whose groups are
sorted ascending by period.) -/
theorem set_total_thers_before_period_idem (rows : List AggRow) (pt : String) :
    OrgActiveTherProcessor.set_total_thers_before_period
        (OrgActiveTherProcessor.set_total_thers_before_period rows pt) pt
      = OrgActiveTherProcessor.set_total_thers_before_period rows pt := by
  open OrgActiveTherProcessor in
  have horgmem : ∀ oid ∈ orgIds rows, ∃ r ∈ rows, r.organization_id = oid := by
    intro oid h
    rw [orgIds, mem_orgIdsDedup, List.mem_map] at h
    obtain ⟨r, hr, he⟩ := h
    exact ⟨r, hr, he⟩
  have hallorg : ∀ o ∈ OrgActiveTherProcessor.orgIds rows,
      ∀ s ∈ OrgActiveTherProcessor.setValueBeforePeriod pt
          (OrgActiveTherProcessor.groupOf rows o),
        s.organization_id = o := by
    intro o _ s hsmem
    have h2 := OrgActiveTherProcessor.org_mem_of_mem_svbp hsmem
    rw [List.mem_map] at h2
    obtain ⟨u, hu, he2⟩ := h2
    rw [← he2]
    exact OrgActiveTherProcessor.org_eq_of_mem_groupOf hu
  have hids : OrgActiveTherProcessor.orgIds
      (OrgActiveTherProcessor.set_total_thers_before_period rows pt)
        = OrgActiveTherProcessor.orgIds rows := by
    open OrgActiveTherProcessor in
    unfold OrgActiveTherProcessor.set_total_thers_before_period OrgActiveTherProcessor.orgIds
    rw [List.map_flatten, List.map_map]
    apply OrgActiveTherProcessor.orgIdsDedup_flatten_blocks
    · exact OrgActiveTherProcessor.orgIdsDedup_nodup _
    · intro a ha
      constructor
      · obtain ⟨r, hr, he⟩ := horgmem a ha
        have hmemg : r ∈ OrgActiveTherProcessor.groupOf rows a := by
          rw [OrgActiveTherProcessor.groupOf, List.mem_filter]
          exact ⟨hr, by simp [he]⟩
        intro hemp
        rw [Function.comp, List.map_eq_nil_iff] at hemp
        have hlen := OrgActiveTherProcessor.svbp_length pt
          (OrgActiveTherProcessor.groupOf rows a)
        rw [hemp] at hlen
        have := List.ne_nil_of_mem hmemg
        simp only [List.length_nil] at hlen
        exact this (List.length_eq_zero.mp hlen.symm)
      · intro b hb
        simp only [Function.comp] at hb
        rw [List.mem_map] at hb
        obtain ⟨s, hs, rfl⟩ := hb
        exact hallorg a ha s hs
  have hgrp : ∀ oid ∈ OrgActiveTherProcessor.orgIds rows,
      OrgActiveTherProcessor.groupOf
          (OrgActiveTherProcessor.set_total_thers_before_period rows pt) oid
        = OrgActiveTherProcessor.setValueBeforePeriod pt
            (OrgActiveTherProcessor.groupOf rows oid) := by
    intro oid hmem
    unfold OrgActiveTherProcessor.set_total_thers_before_period
    rw [OrgActiveTherProcessor.groupOf_flatten, List.map_map]
    exact OrgActiveTherProcessor.flatten_groupOf_blocks
      (fun o => OrgActiveTherProcessor.setValueBeforePeriod pt
        (OrgActiveTherProcessor.groupOf rows o)) oid _
      (OrgActiveTherProcessor.orgIdsDedup_nodup _) hmem hallorg
  show ((OrgActiveTherProcessor.orgIds
      (OrgActiveTherProcessor.set_total_thers_before_period rows pt)).map
        (fun oid => OrgActiveTherProcessor.setValueBeforePeriod pt
          (OrgActiveTherProcessor.groupOf
            (OrgActiveTherProcessor.set_total_thers_before_period rows pt) oid))).flatten = _
  rw [hids]
  rw [List.map_congr_left (fun oid hmem => by
    rw [hgrp oid hmem, OrgActiveTherProcessor.svbp_idem])]
  rfl

/-! ## `src/data_processor/processor_app/interaction.py`

`InteractionDataProcessor._process_data` drops rows with no
`organization_id` (`dropna`), keeps rows with `chat_count > 1` or
`call_count >= 1`, de-duplicates by `(therapist_id, interaction_date)`
keeping the last occurrence (`drop_duplicates(..., keep='last')`, which
preserves the order of the surviving rows), assigns a weekly/monthly/yearly
`period` bucket of `interaction_date`, and de-duplicates again by
`(therapist_id, period)` keeping the last occurrence.  (The merge step in
between only appends constant columns and does not affect these keys.) -/

/-- One interaction row. -/
structure Interaction where
  therapist_id : Int
  interaction_date : Date
  chat_count : Int
  call_count : Int
  organization_id : Option Int
deriving DecidableEq, Repr

/-- Period granularity of the `period` column. -/
inductive PeriodType where
  | weekly
  | monthly
  | yearly
deriving DecidableEq, Repr

/-- Period bucket of a date (`interaction_date.dt.to_period`): pandas `W`
periods are Monday-to-Sunday weeks (ordinal day 1, 0001-01-01, is a
Monday), `M` is the calendar month, `Y` the calendar year. -/
def periodKey : PeriodType → Date → Int × Int
  | PeriodType.weekly, d => (((d.toOrdinal - 1) / 7 : Nat), 0)
  | PeriodType.monthly, d => ((d.year : Int), (d.month : Int))
  | PeriodType.yearly, d => ((d.year : Int), 0)

namespace InteractionDataProcessor

/-- The validity rule of cleaning step 2.2:
`(chat_count > 1) | (call_count >= 1)`. -/
def validInteraction (r : Interaction) : Bool :=
  decide (1 < r.chat_count) || decide (1 ≤ r.call_count)

/-- Cleaning step 2.1: `dropna(subset=['organization_id'])`. -/
def dropNoOrg (rows : List Interaction) : List Interaction :=
  rows.filter (fun r => r.organization_id.isSome)

/-- `drop_duplicates(subset=keys, keep='last')`: a row survives iff no
later row has the same key; surviving rows stay in input order. -/
def dedupLastBy {α κ : Type} [DecidableEq κ] (key : α → κ) : List α → List α
  | [] => []
  | r :: rest =>
    if rest.any (fun s => decide (key s = key r)) then dedupLastBy key rest
    else r :: dedupLastBy key rest

/-- Steps 2.1–3 of `_process_data`: drop rows without organization, filter
valid interactions, de-duplicate by `(therapist_id, interaction_date)`. -/
def cleanedInteractions (rows : List Interaction) : List Interaction :=
  dedupLastBy (fun r => (r.therapist_id, r.interaction_date))
    ((dropNoOrg rows).filter validInteraction)

/-- Steps 5–6: assign the period bucket and de-duplicate by
`(therapist_id, period)`. -/
def periodInteractions (pt : PeriodType) (rows : List Interaction) : List Interaction :=
  dedupLastBy (fun r => (r.therapist_id, periodKey pt r.interaction_date))
    (cleanedInteractions rows)

theorem dedupLastBy_sublist {α κ : Type} [DecidableEq κ] (key : α → κ) (l : List α) :
    (dedupLastBy key l).Sublist l := by
  induction l with
  | nil => exact List.Sublist.refl []
  | cons r rest ih =>
    simp only [dedupLastBy]
    split
    · exact ih.cons r
    · exact ih.cons₂ r

theorem dedupLastBy_keys_nodup {α κ : Type} [DecidableEq κ] (key : α → κ) (l : List α) :
    ((dedupLastBy key l).map key).Nodup := by
  induction l with
  | nil => exact List.nodup_nil
  | cons r rest ih =>
    simp only [dedupLastBy]
    split
    · exact ih
    · rename_i hany
      rw [List.map_cons, List.nodup_cons]
      refine ⟨?_, ih⟩
      intro hmem
      rw [List.mem_map] at hmem
      obtain ⟨s, hs, hks⟩ := hmem
      have hsrest : s ∈ rest := (dedupLastBy_sublist key rest).subset hs
      rw [Bool.not_eq_true, List.any_eq_false] at hany
      exact hany s hsrest (by simp [hks])

theorem dedupLastBy_filter_key {α κ : Type} [DecidableEq κ] (key : α → κ) (l : List α)
    (k : κ) :
    (dedupLastBy key l).filter (fun r => decide (key r = k))
      = ((l.filter (fun r => decide (key r = k))).getLast?).toList := by
  induction l with
  | nil => rfl
  | cons r rest ih =>
    simp only [dedupLastBy]
    split
    · rename_i hany
      by_cases hk : key r = k
      · obtain ⟨s, hs, hks⟩ : ∃ s ∈ rest, key s = key r := by
          simpa [List.any_eq_true] using hany
        have hmemf : s ∈ rest.filter (fun x => decide (key x = k)) :=
          List.mem_filter.mpr ⟨hs, by simp [hks, hk]⟩
        rw [List.filter_cons_of_pos (by simp [hk])]
        cases hxs : rest.filter (fun x => decide (key x = k)) with
        | nil => exact absurd (hxs ▸ hmemf) (List.not_mem_nil s)
        | cons y ys =>
          rw [List.getLast?_cons_cons, ← hxs, ih]
      · rw [List.filter_cons_of_neg (by simp [hk])]
        exact ih
    · rename_i hany
      rw [Bool.not_eq_true, List.any_eq_false] at hany
      by_cases hk : key r = k
      · have hnil : rest.filter (fun x => decide (key x = k)) = [] := by
          rw [List.filter_eq_nil_iff]
          intro s hs
          have hne := hany s hs
          simp only [decide_eq_true_eq] at hne ⊢
          rw [hk] at hne
          exact hne
        have hnil2 : (dedupLastBy key rest).filter (fun x => decide (key x = k)) = [] := by
          rw [ih, hnil]
          rfl
        rw [List.filter_cons_of_pos (by simp [hk]), List.filter_cons_of_pos (by simp [hk]),
          hnil, hnil2]
        rfl
      · rw [List.filter_cons_of_neg (by simp [hk]), List.filter_cons_of_neg (by simp [hk])]
        exact ih

theorem dedupLastBy_pair {α κ : Type} [DecidableEq κ] (key : α → κ) (r1 r2 : α)
    (h : key r1 = key r2) : dedupLastBy key [r1, r2] = [r2] := by
  simp only [dedupLastBy]
  rw [if_pos (by simp [h]), if_neg (by simp)]

end InteractionDataProcessor

/-- C5: an interaction row survives the validity filter iff
`chat_count > 1` or `call_count >= 1`, and in the pipeline this filter runs
on the dropna result, strictly before both de-duplication passes; on the
spec's scenario rows `(chat,call) = (2,0), (1,0), (0,1), (1,1)` exactly
three survive. -/
theorem interaction_validity_filter_spec (rows : List Interaction)
    (r : Interaction) (pt : PeriodType) :
    (r ∈ (InteractionDataProcessor.dropNoOrg rows).filter
        InteractionDataProcessor.validInteraction ↔
      r ∈ InteractionDataProcessor.dropNoOrg rows ∧
        (1 < r.chat_count ∨ 1 ≤ r.call_count))
    ∧ InteractionDataProcessor.cleanedInteractions rows
        = InteractionDataProcessor.dedupLastBy
            (fun s => (s.therapist_id, s.interaction_date))
            ((InteractionDataProcessor.dropNoOrg rows).filter
              InteractionDataProcessor.validInteraction)
    ∧ InteractionDataProcessor.periodInteractions pt rows
        = InteractionDataProcessor.dedupLastBy
            (fun s => (s.therapist_id, periodKey pt s.interaction_date))
            (InteractionDataProcessor.cleanedInteractions rows)
    ∧ (([⟨1, ⟨2023, 1, 2⟩, 2, 0, some 5⟩, ⟨2, ⟨2023, 1, 2⟩, 1, 0, some 5⟩,
         ⟨3, ⟨2023, 1, 2⟩, 0, 1, some 5⟩, ⟨4, ⟨2023, 1, 2⟩, 1, 1, some 5⟩] :
          List Interaction).filter InteractionDataProcessor.validInteraction).length = 3 := by
  refine ⟨?_, rfl, rfl, by decide⟩
  rw [List.mem_filter]
  simp [InteractionDataProcessor.validInteraction]

/-- C6: each `drop_duplicates(..., keep='last')` pass returns a sublist of
its input (surviving rows keep their order), with pairwise distinct keys
(at most one row per key), and for every key the surviving rows with that
key are exactly the last input occurrence of that key; this holds for the
first pass on the filtered rows and for the second pass keyed by
`(therapist_id, period)` on the first pass's output; in particular of two
rows with equal `(therapist_id, interaction_date)` (e.g. differing only in
`organization_id`) only the later row survives. -/
theorem interaction_dedup_spec (l : List Interaction) (pt : PeriodType)
    (k1 : Int × Date) (k2 : Int × (Int × Int)) (r1 r2 : Interaction) :
    (InteractionDataProcessor.dedupLastBy
        (fun r => (r.therapist_id, r.interaction_date)) l).Sublist l
    ∧ ((InteractionDataProcessor.dedupLastBy
          (fun r => (r.therapist_id, r.interaction_date)) l).map
            (fun r => (r.therapist_id, r.interaction_date))).Nodup
    ∧ (InteractionDataProcessor.dedupLastBy
          (fun r => (r.therapist_id, r.interaction_date)) l).filter
            (fun r => decide ((r.therapist_id, r.interaction_date) = k1))
        = ((l.filter
            (fun r => decide ((r.therapist_id, r.interaction_date) = k1))).getLast?).toList
    ∧ (InteractionDataProcessor.dedupLastBy
        (fun r => (r.therapist_id, periodKey pt r.interaction_date))
        (InteractionDataProcessor.dedupLastBy
          (fun r => (r.therapist_id, r.interaction_date)) l)).Sublist
          (InteractionDataProcessor.dedupLastBy
            (fun r => (r.therapist_id, r.interaction_date)) l)
    ∧ ((InteractionDataProcessor.dedupLastBy
          (fun r => (r.therapist_id, periodKey pt r.interaction_date))
          (InteractionDataProcessor.dedupLastBy
            (fun r => (r.therapist_id, r.interaction_date)) l)).map
              (fun r => (r.therapist_id, periodKey pt r.interaction_date))).Nodup
    ∧ (InteractionDataProcessor.dedupLastBy
          (fun r => (r.therapist_id, periodKey pt r.interaction_date))
          (InteractionDataProcessor.dedupLastBy
            (fun r => (r.therapist_id, r.interaction_date)) l)).filter
            (fun r => decide ((r.therapist_id, periodKey pt r.interaction_date) = k2))
        = (((InteractionDataProcessor.dedupLastBy
              (fun r => (r.therapist_id, r.interaction_date)) l).filter
                (fun r =>
                  decide ((r.therapist_id, periodKey pt r.interaction_date) = k2))).getLast?).toList
    ∧ ((r1.therapist_id, r1.interaction_date) = (r2.therapist_id, r2.interaction_date) →
        InteractionDataProcessor.dedupLastBy
          (fun r => (r.therapist_id, r.interaction_date)) [r1, r2] = [r2]) :=
  ⟨InteractionDataProcessor.dedupLastBy_sublist _ l,
   InteractionDataProcessor.dedupLastBy_keys_nodup _ l,
   InteractionDataProcessor.dedupLastBy_filter_key _ l k1,
   InteractionDataProcessor.dedupLastBy_sublist _ _,
   InteractionDataProcessor.dedupLastBy_keys_nodup _ _,
   InteractionDataProcessor.dedupLastBy_filter_key _ _ k2,
   fun h => InteractionDataProcessor.dedupLastBy_pair _ r1 r2 h⟩

/-- Witness for C6 on the spec's dedup scenario: two rows for therapist 1
on the same interaction date with different organization ids — only the
later row survives. -/
theorem interaction_dedup_spec_witness :
    InteractionDataProcessor.dedupLastBy
        (fun r : Interaction => (r.therapist_id, r.interaction_date))
        ([⟨1, ⟨2023, 1, 2⟩, 2, 0, some 7⟩, ⟨1, ⟨2023, 1, 2⟩, 0, 1, some 8⟩] :
          List Interaction)
      = [⟨1, ⟨2023, 1, 2⟩, 0, 1, some 8⟩] :=
  (interaction_dedup_spec [] PeriodType.weekly (0, ⟨1, 1, 1⟩) (0, (0, 0))
    ⟨1, ⟨2023, 1, 2⟩, 2, 0, some 7⟩ ⟨1, ⟨2023, 1, 2⟩, 0, 1, some 8⟩).2.2.2.2.2.2
    (by decide)

/-! ## `src/data-processing-service/data_cleaner/sources/operations.py` -/

namespace TherapistInteractionBackendOperation

/-- The expected header row of the downloaded CSV. -/
def expectedHeaders : List String :=
  ["therapist_id", "interaction_date", "therapist_chat_count", "call_count"]

/-- Python `set(a) == set(b)` on lists of strings: order- and
multiplicity-insensitive equality. -/
def setEqStr (a b : List String) : Bool :=
  a.all (fun x => b.contains x) && b.all (fun x => a.contains x)

/-- Embedding of `_validate`: raise on an empty table (`len(data) < 1`),
pop the header row, raise unless `set(headers) == set(expected_headers)`,
otherwise return the remaining rows unchanged. -/
def validate (data : List (List String)) : Except String (List (List String)) :=
  match data with
  | [] => Except.error "The CSV File is empty or invalid."
  | headers :: rest =>
    if setEqStr headers expectedHeaders then Except.ok rest
    else Except.error "The headers of CSV File has changed!"

end TherapistInteractionBackendOperation

/-- C9: `_validate` raises (a `ValueError`, modelled as `Except.error`) on a
table with no rows at all and on a header row that does not match the
expected schema — where matching is Python set equality of the header names,
hence order- and duplicate-insensitive — and otherwise returns the table
with the header row removed and the data rows unchanged. -/
theorem validate_spec (data : List (List String)) :
    (data = [] →
      TherapistInteractionBackendOperation.validate data
        = Except.error "The CSV File is empty or invalid.")
    ∧ (∀ h t, data = h :: t →
        (TherapistInteractionBackendOperation.setEqStr h
            TherapistInteractionBackendOperation.expectedHeaders = true →
          TherapistInteractionBackendOperation.validate data = Except.ok t)
        ∧ (TherapistInteractionBackendOperation.setEqStr h
            TherapistInteractionBackendOperation.expectedHeaders = false →
          TherapistInteractionBackendOperation.validate data
            = Except.error "The headers of CSV File has changed!")) := by
  refine ⟨?_, ?_⟩
  · rintro rfl
    rfl
  · rintro h t rfl
    constructor
    · intro hok
      simp only [TherapistInteractionBackendOperation.validate, if_pos hok]
    · intro hbad
      simp only [TherapistInteractionBackendOperation.validate, hbad]
      rfl

/-- Witness for C9: a permuted (but set-equal) header row passes validation
and the data rows come back unchanged; header matching is set-based. -/
theorem validate_spec_witness :
    TherapistInteractionBackendOperation.validate
        [["call_count", "therapist_id", "interaction_date", "therapist_chat_count"],
         ["42", "2023-01-01", "3", "0"]]
      = Except.ok [["42", "2023-01-01", "3", "0"]] :=
  ((validate_spec _).2
    ["call_count", "therapist_id", "interaction_date", "therapist_chat_count"]
    [["42", "2023-01-01", "3", "0"]] rfl).1 (by decide)
